import Mathlib

/-!
Shallow embedding of the graph-easy-online layout engine
(`src/js-implementation/layout-engine-rust/src/lib.rs`) and verification of
its specification claims.

Modelling conventions:
* Rust `u32` fields are modelled as `Nat`, `i32` fields as `Int` (no claim
  under verification concerns machine-integer overflow).
* Rust `HashMap` built by repeated insertion is modelled by a last-wins
  linear lookup (`findNode`, `findPos`) or, for the adjacency/in-degree maps
  of `topological_sort`, by counting functions over the edge list; the key
  set of those maps is `nodeIds` (first-occurrence deduplication, matching
  unique hash-map keys).
* Rust `Vec::sort` on `Vec<String>` sorts lexicographically by bytes; for
  UTF-8 this coincides with code-point order, i.e. with Lean's `String`
  linear order.  Any sorted permutation of a list is unique, so
  `List.insertionSort` is an exact model of the observable result.
* The `while` loop of Kahn's algorithm is modelled with explicit fuel
  `nodeIds.length + 1`; the proofs below establish that the fuel never runs
  out for inputs produced by `topological_sort`.
* A Rust panic (the `unwrap` of a node lookup in `assign_positions`) is
  modelled as `Option.none`; `compute_layout` therefore returns
  `Option (Except String LayoutResult)` with `none` for the panic path,
  `some (Except.error e)` for a returned error and `some (Except.ok r)` for
  success.
* `usize` decrement in `topological_sort` is modelled by truncated `Nat`
  subtraction; the invariant proofs show the decremented value is always
  positive, so no divergence from Rust (whose debug build would panic on
  underflow) is reachable.
-/

deriving instance DecidableEq for Except

/-- NodeData mirrors the Rust struct `NodeData`: id, name, label (serde
default = empty string), width and height (serde default = 0). -/
structure NodeData where
  id : String
  name : String
  label : String
  width : Nat
  height : Nat
deriving DecidableEq, Repr

/-- EdgeData mirrors the Rust struct `EdgeData`; `from`/`to` are node ids. -/
structure EdgeData where
  «from» : String
  «to» : String
  id : String
  label : Option String
deriving DecidableEq, Repr

/-- LayoutConfig mirrors the Rust struct `LayoutConfig` (spacings are i32). -/
structure LayoutConfig where
  flow : String
  node_spacing : Int
  rank_spacing : Int
deriving DecidableEq, Repr

/-- Default config from `impl Default for LayoutConfig`. -/
def LayoutConfig.default : LayoutConfig :=
  { flow := "east", node_spacing := 3, rank_spacing := 5 }

/-- GraphData mirrors the Rust struct `GraphData`. -/
structure GraphData where
  nodes : List NodeData
  edges : List EdgeData
  config : LayoutConfig
deriving DecidableEq, Repr

/-- Point mirrors the Rust struct `Point` (i32 coordinates). -/
structure Point where
  x : Int
  y : Int
deriving DecidableEq, Repr

/-- NodePosition mirrors the Rust struct `NodePosition`. -/
structure NodePosition where
  id : String
  x : Int
  y : Int
  width : Nat
  height : Nat
  label : String
deriving DecidableEq, Repr

/-- EdgePath mirrors the Rust struct `EdgePath`. -/
structure EdgePath where
  id : String
  «from» : String
  «to» : String
  points : List Point
  label : Option String
deriving DecidableEq, Repr

/-- Bounds mirrors the Rust struct `Bounds` (u32 width/height). -/
structure Bounds where
  width : Nat
  height : Nat
deriving DecidableEq, Repr

/-- LayoutResult mirrors the Rust struct `LayoutResult`. -/
structure LayoutResult where
  nodes : List NodePosition
  edges : List EdgePath
  bounds : Bounds
deriving DecidableEq, Repr

/-- Lexicographic order on strings as code-point-wise order on their
character lists; for UTF-8 this coincides with Rust's byte-wise `String`
order.  (Core's `String.decidableLE` is well-founded-recursive and does not
reduce in the kernel, so the order is stated on `String.data` instead.) -/
def strLe (a b : String) : Prop :=
  a.data ≤ b.data

instance : DecidableRel strLe :=
  fun a b => inferInstanceAs (Decidable (a.data ≤ b.data))

instance : IsTotal String strLe :=
  ⟨fun a b => le_total a.data b.data⟩

instance : IsTrans String strLe :=
  ⟨fun _ _ _ h1 h2 => le_trans h1 h2⟩

instance : IsAntisymm String strLe :=
  ⟨fun a b h1 h2 => by
    have h := le_antisymm h1 h2
    cases a
    cases b
    exact congrArg String.mk h⟩

/-- Lexicographic sort of a string list; models `Vec::<String>::sort()` (any
sorted permutation of a list is unique, so the algorithm used is
irrelevant to the result). -/
def sortStr (l : List String) : List String :=
  l.insertionSort strLe

/-- Key set of the Rust `HashMap`s `adj` / `in_degree`: one key per distinct
node id.  Hash-map iteration order is arbitrary and every place the key
list is consumed is either order-insensitive (membership, length) or
sorted immediately afterwards, so only the key set matters; `dedup` is a
convenient nodup enumeration of it. -/
def nodeIds (g : GraphData) : List String :=
  (g.nodes.map (fun n => n.id)).dedup

/-- Edge-endpoint validation loop of `topological_sort` (lib.rs lines
194-205): the first edge whose `from` (checked first) or `to` is not a key
of `in_degree` aborts with the corresponding error message. -/
def checkEdges (ids : List String) : List EdgeData → Except String Unit
  | [] => Except.ok ()
  | e :: rest =>
    if e.«from» ∉ ids then Except.error ("Edge from unknown node: " ++ e.«from»)
    else if e.«to» ∉ ids then Except.error ("Edge to unknown node: " ++ e.«to»)
    else checkEdges ids rest

/-- Adjacency map after the build loop: `adj[u]` holds the `to` of every
edge with `from = u`, in edge-list order. -/
def adjMap (edges : List EdgeData) (u : String) : List String :=
  (edges.filter (fun e => e.«from» == u)).map (fun e => e.«to»)

/-- In-degree map after the build loop: number of edges pointing to `v`. -/
def in_degree (edges : List EdgeData) (v : String) : Nat :=
  (edges.filter (fun e => e.«to» == v)).length

/-- One neighbour visit in the inner loop of Kahn's algorithm (lib.rs lines
226-234): decrement the neighbour's degree; if it reached zero and was not
yet seen in this step, append it to the next layer.  State is
(degree map, next layer, seen set). -/
def layerStep (st : (String → Nat) × List String × List String) (nbr : String) :
    (String → Nat) × List String × List String :=
  if st.1 nbr - 1 = 0 ∧ nbr ∉ st.2.2 then
    (Function.update st.1 nbr (st.1 nbr - 1), st.2.1 ++ [nbr], nbr :: st.2.2)
  else
    (Function.update st.1 nbr (st.1 nbr - 1), st.2.1, st.2.2)

/-- Processing of one emitted layer (lib.rs lines 221-236): visit every
neighbour of every member of the current layer. -/
def processLayer (adjf : String → List String) (deg : String → Nat)
    (cur : List String) : (String → Nat) × List String :=
  let st := cur.foldl (fun st u => (adjf u).foldl layerStep st) (deg, [], [])
  (st.1, st.2.1)

/-- Main `while !current_layer.is_empty()` loop (lib.rs lines 218-240),
with explicit fuel.  `topological_sort` supplies fuel `nodeIds.length + 1`,
which the invariant proofs show is never exhausted. -/
def kahnLoop (adjf : String → List String) :
    Nat → (String → Nat) → List String → List (List String) → List (List String)
  | 0, _, _, acc => acc
  | fuel + 1, deg, cur, acc =>
    if cur = [] then acc
    else
      let st := processLayer adjf deg cur
      kahnLoop adjf fuel st.1 (sortStr st.2) (acc ++ [cur])

/-- Rust `topological_sort` (lib.rs lines 183-253): validate edges, run
layered Kahn, and on a node-count mismatch (cycle, or duplicate node ids)
fall back to a single lexicographically sorted layer of all node ids. -/
def topological_sort (g : GraphData) : Except String (List (List String)) :=
  match checkEdges (nodeIds g) g.edges with
  | Except.error e => Except.error e
  | Except.ok _ =>
    let deg := in_degree g.edges
    let cur := sortStr ((nodeIds g).filter (fun v => deg v == 0))
    let layers := kahnLoop (adjMap g.edges) ((nodeIds g).length + 1) deg cur []
    let total := (layers.map List.length).sum
    if total ≠ g.nodes.length then
      Except.ok [sortStr (g.nodes.map (fun n => n.id))]
    else
      Except.ok layers

/-- Last-wins lookup modelling the `node_map : HashMap<String, &NodeData>`
built from the node list (later inserts overwrite earlier ones). -/
def findNode (nodes : List NodeData) (key : String) : Option NodeData :=
  nodes.foldl (fun acc n => if n.id == key then some n else acc) none

/-- Width resolution in `assign_positions` (lib.rs lines 270-272). -/
def resolveWidth (node : NodeData) : Nat :=
  if node.width > 0 then node.width
  else max (max node.label.length node.name.length) 3 + 4

/-- Height resolution in `assign_positions` (lib.rs line 273). -/
def resolveHeight (node : NodeData) : Nat :=
  if node.height > 0 then node.height else 3

/-- Label resolution in `assign_positions` (lib.rs lines 293-297). -/
def resolveLabel (node : NodeData) : String :=
  if node.label ≠ "" then node.label else node.name

/-- Flow test of `assign_positions` (lib.rs line 264). -/
def isHorizontal (config : LayoutConfig) : Bool :=
  config.flow == "east" || config.flow == "west"

/-- Position computed for the node at (layer_idx, node_idx)
(lib.rs lines 268-298). -/
def positionFor (config : LayoutConfig) (layer_idx node_idx : Nat)
    (node : NodeData) : NodePosition :=
  let width := resolveWidth node
  let height := resolveHeight node
  let x : Int :=
    if isHorizontal config then (layer_idx : Int) * ((width : Int) + config.node_spacing)
    else (node_idx : Int) * ((width : Int) + config.node_spacing)
  let y : Int :=
    if isHorizontal config then (node_idx : Int) * ((height : Int) + config.rank_spacing)
    else (layer_idx : Int) * ((height : Int) + config.rank_spacing)
  { id := node.id, x := x, y := y, width := width, height := height,
    label := resolveLabel node }

/-- Inner loop of `assign_positions` over one layer; carries the running
node index.  A failed lookup (`node_map.get(..).unwrap()` panic in Rust) is
`none`. -/
def assignLayer (config : LayoutConfig) (nodes : List NodeData)
    (layer_idx : Nat) : Nat → List String → Option (List NodePosition)
  | _, [] => some []
  | node_idx, id :: rest =>
    match findNode nodes id with
    | none => none
    | some node =>
      match assignLayer config nodes layer_idx (node_idx + 1) rest with
      | none => none
      | some ps => some (positionFor config layer_idx node_idx node :: ps)

/-- Outer loop of `assign_positions` over the layers; carries the running
layer index. -/
def assignAll (config : LayoutConfig) (nodes : List NodeData) :
    Nat → List (List String) → Option (List NodePosition)
  | _, [] => some []
  | layer_idx, layer :: rest =>
    match assignLayer config nodes layer_idx 0 layer with
    | none => none
    | some ps =>
      match assignAll config nodes (layer_idx + 1) rest with
      | none => none
      | some ps' => some (ps ++ ps')

/-- Rust `assign_positions` (lib.rs lines 257-303). -/
def assign_positions (layers : List (List String)) (nodes : List NodeData)
    (config : LayoutConfig) : Option (List NodePosition) :=
  assignAll config nodes 0 layers

/-- Last-wins lookup modelling `pos_map : HashMap<String, &NodePosition>`. -/
def findPos (ps : List NodePosition) (key : String) : Option NodePosition :=
  ps.foldl (fun acc p => if p.id == key then some p else acc) none

/-- Routing of a single edge (lib.rs lines 315-361); `none` models the
`continue` taken when an endpoint is missing from the position map.  Rust
`i32` division truncates toward zero: for the non-negative `height / 2`
this is `Nat` division, and for the possibly negative midpoint offset it is
`Int.div`. -/
def routeOne (ps : List NodePosition) (edge : EdgeData) : Option EdgePath :=
  match findPos ps edge.«from», findPos ps edge.«to» with
  | some from_pos, some to_pos =>
    let start_x : Int := from_pos.x + (from_pos.width : Int)
    let start_y : Int := from_pos.y + ((from_pos.height / 2 : Nat) : Int)
    let end_x : Int := to_pos.x
    let end_y : Int := to_pos.y + ((to_pos.height / 2 : Nat) : Int)
    let points :=
      if start_y = end_y then
        [Point.mk start_x start_y, Point.mk end_x end_y]
      else
        let mid_x := start_x + Int.tdiv (end_x - start_x) 2
        [Point.mk start_x start_y, Point.mk mid_x start_y,
         Point.mk mid_x end_y, Point.mk end_x end_y]
    some { id := edge.id, «from» := edge.«from», «to» := edge.«to»,
           points := points, label := edge.label }
  | _, _ => none

/-- Rust `route_edges` (lib.rs lines 307-364). -/
def route_edges (g : GraphData) (ps : List NodePosition) : List EdgePath :=
  g.edges.filterMap (routeOne ps)

/-- Rust `calculate_bounds` (lib.rs lines 368-389): max of `x + width`
resp. `y + height`, clamped at 0 and cast to u32. -/
def calculate_bounds (ps : List NodePosition) : Bounds :=
  if ps.isEmpty then { width := 0, height := 0 }
  else
    let max_x := ((ps.map (fun p => p.x + (p.width : Int))).max?).getD 0
    let max_y := ((ps.map (fun p => p.y + (p.height : Int))).max?).getD 0
    { width := (max max_x 0).toNat, height := (max max_y 0).toNat }

/-- Rust `compute_layout` (lib.rs lines 146-179).  `none` is the (provably
unreachable) panic path of `assign_positions`. -/
def compute_layout (g : GraphData) : Option (Except String LayoutResult) :=
  if g.nodes.isEmpty then
    some (Except.ok { nodes := [], edges := [], bounds := { width := 0, height := 0 } })
  else
    match topological_sort g with
    | Except.error e => some (Except.error e)
    | Except.ok layers =>
      match assign_positions layers g.nodes g.config with
      | none => none
      | some ps =>
        some (Except.ok { nodes := ps, edges := route_edges g ps,
                          bounds := calculate_bounds ps })

/-- Acyclicity of the edge list: some numbering of the node ids strictly
increases along every edge. -/
def Acyclic (g : GraphData) : Prop :=
  ∃ f : String → Nat, ∀ e ∈ g.edges, f e.«from» < f e.«to»

/-- Validity of the edge list: every endpoint names an existing node id. -/
def EdgesValid (g : GraphData) : Prop :=
  ∀ e ∈ g.edges, e.«from» ∈ nodeIds g ∧ e.«to» ∈ nodeIds g

instance (g : GraphData) : Decidable (EdgesValid g) := by
  unfold EdgesValid
  infer_instance

/-- Ghost count: edges into `v` whose source is outside the id set `S`. -/
def inOutside (E : List EdgeData) (S : List String) (v : String) : Nat :=
  E.countP (fun e => decide (e.«to» = v ∧ e.«from» ∉ S))

/-- Ghost count: edges into `v` whose source belongs to the id set `S`. -/
def cntFrom (E : List EdgeData) (S : List String) (v : String) : Nat :=
  E.countP (fun e => decide (e.«to» = v ∧ e.«from» ∈ S))

/-- Loop invariant of Kahn's algorithm, holding at every entry of
`kahnLoop`: `acc` holds the emitted layers (their edges already consumed by
the degree map), `cur` the layer about to be emitted. -/
structure KahnInv (E : List EdgeData) (ids : List String) (deg : String → Nat)
    (cur : List String) (acc : List (List String)) : Prop where
  nodup : (acc.flatten ++ cur).Nodup
  subset : ∀ v ∈ acc.flatten ++ cur, v ∈ ids
  curSorted : cur.Sorted strLe
  degEq : ∀ v, deg v = inOutside E acc.flatten v
  curZero : ∀ v ∈ cur, deg v = 0
  accZero : ∀ v ∈ acc.flatten, deg v = 0
  zeroIn : ∀ v ∈ ids, deg v = 0 → v ∈ acc.flatten ∨ v ∈ cur
  accSorted : ∀ l ∈ acc, l.Sorted strLe
  accNe : ∀ l ∈ acc, l ≠ []
  order : ∀ e ∈ E, ∀ j l, acc[j]? = some l → e.«to» ∈ l →
    e.«from» ∈ (acc.take j).flatten

/-- Properties of the finished layer list produced by `kahnLoop`. -/
structure KahnFinal (E : List EdgeData) (ids : List String)
    (L : List (List String)) : Prop where
  nodup : L.flatten.Nodup
  subset : ∀ v ∈ L.flatten, v ∈ ids
  sorted : ∀ l ∈ L, l.Sorted strLe
  ne : ∀ l ∈ L, l ≠ []
  order : ∀ e ∈ E, ∀ j l, L[j]? = some l → e.«to» ∈ l →
    e.«from» ∈ (L.take j).flatten
  stuck : ∀ v ∈ ids, v ∉ L.flatten → inOutside E L.flatten v ≠ 0

/-- Index of the first layer containing `v` (length of `L` if none does). -/
def layerIdxOf (L : List (List String)) (v : String) : Nat :=
  L.findIdx (fun l => l.contains v)

/-- Concrete two-node graph a→b with explicit sizes, default config. -/
def gAB : GraphData :=
  { nodes := [⟨"a", "A", "A", 5, 3⟩, ⟨"b", "B", "B", 5, 3⟩],
    edges := [⟨"a", "b", "e1", none⟩],
    config := LayoutConfig.default }

/-- Same graph as `gAB` with the node list permuted. -/
def gBA : GraphData :=
  { nodes := [⟨"b", "B", "B", 5, 3⟩, ⟨"a", "A", "A", 5, 3⟩],
    edges := [⟨"a", "b", "e1", none⟩],
    config := LayoutConfig.default }

/-- Concrete graph: isolated node a plus the two-cycle b↔c. -/
def gCyc2 : GraphData :=
  { nodes := [⟨"a", "A", "A", 0, 0⟩, ⟨"b", "B", "B", 0, 0⟩, ⟨"c", "C", "C", 0, 0⟩],
    edges := [⟨"b", "c", "e1", none⟩, ⟨"c", "b", "e2", none⟩],
    config := LayoutConfig.default }

/-- Concrete three-cycle a→b→c→a. -/
def gCyc3 : GraphData :=
  { nodes := [⟨"a", "A", "A", 0, 0⟩, ⟨"b", "B", "B", 0, 0⟩, ⟨"c", "C", "C", 0, 0⟩],
    edges := [⟨"a", "b", "e1", none⟩, ⟨"b", "c", "e2", none⟩, ⟨"c", "a", "e3", none⟩],
    config := LayoutConfig.default }

/-- Concrete graph with an empty node set and a dangling edge. -/
def gBadEdgeEmpty : GraphData :=
  { nodes := [],
    edges := [⟨"x", "y", "e1", none⟩],
    config := LayoutConfig.default }

/-- Concrete graph with one node and an edge to a nonexistent node id. -/
def gBadEdge : GraphData :=
  { nodes := [⟨"a", "A", "", 0, 0⟩],
    edges := [⟨"a", "x", "e9", none⟩],
    config := LayoutConfig.default }

/-- Concrete graph a→b whose two nodes have different widths (5 and 9). -/
def gWide : GraphData :=
  { nodes := [⟨"a", "A", "A", 5, 3⟩, ⟨"b", "B", "B", 9, 3⟩],
    edges := [⟨"a", "b", "e1", none⟩],
    config := LayoutConfig.default }

lemma beq_eq_decide_eq (a b : String) : (a == b) = decide (a = b) := by
  by_cases h : a = b <;> simp [h]

lemma sortStr_perm (l : List String) : (sortStr l).Perm l :=
  List.perm_insertionSort _ l

lemma sortStr_sorted (l : List String) : (sortStr l).Sorted strLe :=
  List.sorted_insertionSort _ l

lemma sortStr_congr {l₁ l₂ : List String} (h : l₁.Perm l₂) :
    sortStr l₁ = sortStr l₂ :=
  List.eq_of_perm_of_sorted (((sortStr_perm l₁).trans h).trans (sortStr_perm l₂).symm)
    (sortStr_sorted l₁) (sortStr_sorted l₂)

lemma sortStr_nodup {l : List String} (h : l.Nodup) : (sortStr l).Nodup :=
  (sortStr_perm l).nodup_iff.mpr h

lemma sortStr_mem {l : List String} {a : String} : a ∈ sortStr l ↔ a ∈ l :=
  (sortStr_perm l).mem_iff

lemma in_degree_eq_inOutside (E : List EdgeData) (v : String) :
    in_degree E v = inOutside E [] v := by
  unfold in_degree inOutside
  rw [← List.countP_eq_length_filter]
  refine List.countP_congr (fun e _ => ?_)
  by_cases h : e.«to» = v <;> simp [h, beq_eq_decide_eq]

lemma cntFrom_nil (E : List EdgeData) (v : String) : cntFrom E [] v = 0 := by
  unfold cntFrom
  simp

lemma cntFrom_cons (E : List EdgeData) (v u : String) (rest : List String)
    (hu : u ∉ rest) :
    cntFrom E (u :: rest) v = cntFrom E [u] v + cntFrom E rest v := by
  unfold cntFrom
  induction E with
  | nil => rfl
  | cons e E ih =>
    by_cases h1 : e.«to» = v
    · by_cases h2 : e.«from» = u
      · simp only [List.countP_cons] at ih ⊢
        simp [h1, h2, hu] at ih ⊢
        omega
      · by_cases h3 : e.«from» ∈ rest
        · simp only [List.countP_cons] at ih ⊢
          simp [h1, h2, h3] at ih ⊢
          omega
        · simp only [List.countP_cons] at ih ⊢
          simp [h1, h2, h3] at ih ⊢
          omega
    · simp only [List.countP_cons] at ih ⊢
      simp [h1] at ih ⊢
      omega

lemma inOutside_append (E : List EdgeData) (S T : List String) (v : String)
    (hdisj : ∀ u ∈ T, u ∉ S) :
    inOutside E S v = cntFrom E T v + inOutside E (S ++ T) v := by
  unfold inOutside cntFrom
  induction E with
  | nil => rfl
  | cons e E ih =>
    by_cases h1 : e.«to» = v
    · by_cases h2 : e.«from» ∈ S
      · have h3 : e.«from» ∉ T := fun h => hdisj _ h h2
        simp only [List.countP_cons] at ih ⊢
        simp [h1, h2, h3] at ih ⊢
        omega
      · by_cases h3 : e.«from» ∈ T
        · simp only [List.countP_cons] at ih ⊢
          simp [h1, h2, h3] at ih ⊢
          omega
        · simp only [List.countP_cons] at ih ⊢
          simp [h1, h2, h3] at ih ⊢
          omega
    · simp only [List.countP_cons] at ih ⊢
      simp [h1] at ih ⊢
      omega

lemma inOutside_pos (E : List EdgeData) (S : List String) {v : String}
    {e : EdgeData} (he : e ∈ E) (hv : e.«to» = v) (hS : e.«from» ∉ S) :
    0 < inOutside E S v := by
  unfold inOutside
  rw [List.countP_pos_iff]
  exact ⟨e, he, by simp [hv, hS]⟩

lemma cntFrom_le_inOutside (E : List EdgeData) (S cur : List String) (v : String)
    (hd : ∀ u ∈ cur, u ∉ S) :
    cntFrom E cur v ≤ inOutside E S v := by
  unfold cntFrom inOutside
  refine List.countP_mono_left (fun e _ h => ?_)
  simp only [decide_eq_true_eq] at h ⊢
  exact ⟨h.1, fun hmem => hd _ h.2 hmem⟩

lemma count_adjMap (E : List EdgeData) (u v : String) :
    (adjMap E u).count v = cntFrom E [u] v := by
  unfold adjMap cntFrom
  induction E with
  | nil => rfl
  | cons e E ih =>
    by_cases h1 : e.«from» = u
    · by_cases h2 : e.«to» = v
      · simp only [List.filter_cons, List.countP_cons] at ih ⊢
        simp [h1, h2, beq_eq_decide_eq, List.count_cons] at ih ⊢
        omega
      · simp only [List.filter_cons, List.countP_cons] at ih ⊢
        simp [h1, h2, beq_eq_decide_eq, List.count_cons] at ih ⊢
        omega
    · simp only [List.filter_cons, List.countP_cons] at ih ⊢
      simp [h1, beq_eq_decide_eq] at ih ⊢
      omega

lemma count_flatten_adjMap (E : List EdgeData) (cur : List String) (v : String)
    (hnd : cur.Nodup) :
    ((cur.map (adjMap E)).flatten).count v = cntFrom E cur v := by
  induction cur with
  | nil => simp [cntFrom_nil]
  | cons u rest ih =>
    have hu : u ∉ rest := (List.nodup_cons.mp hnd).1
    have hrest := (List.nodup_cons.mp hnd).2
    simp only [List.map_cons, List.flatten_cons, List.count_append]
    rw [count_adjMap, ih hrest, cntFrom_cons E v u rest hu]

lemma layerFold_spec (d0 : String → Nat) (ts : List String) :
    ∀ (cs : List String) (d : String → Nat) (next seen : List String),
      (∀ v, (cs ++ ts).count v ≤ d0 v) →
      (∀ v, d v = d0 v - cs.count v) →
      next.Nodup →
      (∀ v, v ∈ seen ↔ v ∈ next) →
      (∀ v, v ∈ next ↔ (0 < d0 v ∧ cs.count v = d0 v)) →
      (∀ v, (ts.foldl layerStep (d, next, seen)).1 v = d0 v - (cs ++ ts).count v) ∧
      (ts.foldl layerStep (d, next, seen)).2.1.Nodup ∧
      (∀ v, v ∈ (ts.foldl layerStep (d, next, seen)).2.1 ↔
        (0 < d0 v ∧ (cs ++ ts).count v = d0 v)) := by
  induction ts with
  | nil =>
    intro cs d next seen hbound hd hnodup hseen hmem
    simpa using ⟨hd, hnodup, hmem⟩
  | cons t ts ih =>
    intro cs d next seen hbound hd hnodup hseen hmem
    have hbt : cs.count t + ts.count t + 1 ≤ d0 t := by
      have h := hbound t
      rw [List.count_append, List.count_cons_self] at h
      omega
    have hpos : 0 < d0 t := by omega
    have hlt : cs.count t < d0 t := by omega
    have ht_not_next : t ∉ next := fun h => by
      have := (hmem t).mp h
      omega
    have ht_not_seen : t ∉ seen := fun h => ht_not_next ((hseen t).mp h)
    have hdt : d t = d0 t - cs.count t := hd t
    have hcount_t : (cs ++ [t]).count t = cs.count t + 1 := by
      simp [List.count_append]
    have hcount_ne : ∀ v, v ≠ t → (cs ++ [t]).count v = cs.count v := by
      intro v hv
      simp [List.count_append, List.count_cons, Ne.symm hv]
    have harr : (cs ++ [t]) ++ ts = cs ++ t :: ts := by simp
    have hb' : ∀ v, ((cs ++ [t]) ++ ts).count v ≤ d0 v := by
      rw [harr]; exact hbound
    have hd' : ∀ v, Function.update d t (d t - 1) v = d0 v - (cs ++ [t]).count v := by
      intro v
      by_cases hv : v = t
      · rw [hv, Function.update_same, hd t, hcount_t]
        omega
      · rw [Function.update_noteq hv, hd v, hcount_ne v hv]
    simp only [List.foldl_cons]
    by_cases hz : d t - 1 = 0
    · have hstep : layerStep (d, next, seen) t
          = (Function.update d t (d t - 1), next ++ [t], t :: seen) := by
        simp [layerStep, hz, ht_not_seen]
      rw [hstep]
      have hn' : (next ++ [t]).Nodup := by
        simp [List.nodup_append, hnodup, ht_not_next]
      have hs' : ∀ v, v ∈ t :: seen ↔ v ∈ next ++ [t] := by
        intro v
        simp only [List.mem_cons, List.mem_append, List.mem_singleton, hseen v]
        tauto
      have hm' : ∀ v, v ∈ next ++ [t] ↔ (0 < d0 v ∧ (cs ++ [t]).count v = d0 v) := by
        intro v
        by_cases hv : v = t
        · rw [hv, hcount_t]
          simp only [List.mem_append, List.mem_singleton, or_true, true_iff]
          exact ⟨hpos, by omega⟩
        · simp only [List.mem_append, List.mem_singleton, hv, or_false, hcount_ne v hv]
          exact hmem v
      have IH := ih (cs ++ [t]) (Function.update d t (d t - 1)) (next ++ [t])
        (t :: seen) hb' hd' hn' hs' hm'
      rw [harr] at IH
      exact IH
    · have hstep : layerStep (d, next, seen) t
          = (Function.update d t (d t - 1), next, seen) := by
        simp [layerStep, hz]
      rw [hstep]
      have hm' : ∀ v, v ∈ next ↔ (0 < d0 v ∧ (cs ++ [t]).count v = d0 v) := by
        intro v
        by_cases hv : v = t
        · rw [hv, hcount_t]
          constructor
          · intro h; exact absurd h ht_not_next
          · rintro ⟨h1, h2⟩; omega
        · rw [hcount_ne v hv]
          exact hmem v
      have IH := ih (cs ++ [t]) (Function.update d t (d t - 1)) next seen
        hb' hd' hnodup hseen hm'
      rw [harr] at IH
      exact IH

lemma processLayer_eq (adjf : String → List String) (deg : String → Nat)
    (cur : List String) :
    processLayer adjf deg cur =
      ((((cur.map adjf).flatten).foldl layerStep (deg, [], [])).1,
       (((cur.map adjf).flatten).foldl layerStep (deg, [], [])).2.1) := by
  unfold processLayer
  rw [List.foldl_flatten, List.foldl_map]

lemma processLayer_spec (E : List EdgeData) (deg : String → Nat)
    (cur : List String) (hnd : cur.Nodup)
    (hbound : ∀ v, cntFrom E cur v ≤ deg v) :
    (∀ v, (processLayer (adjMap E) deg cur).1 v = deg v - cntFrom E cur v) ∧
    (processLayer (adjMap E) deg cur).2.Nodup ∧
    (∀ v, v ∈ (processLayer (adjMap E) deg cur).2 ↔
      (0 < deg v ∧ cntFrom E cur v = deg v)) := by
  have hts : ∀ v, ((cur.map (adjMap E)).flatten).count v = cntFrom E cur v :=
    fun v => count_flatten_adjMap E cur v hnd
  have H := layerFold_spec deg ((cur.map (adjMap E)).flatten) [] deg [] []
    (fun v => by simpa [hts v] using hbound v)
    (fun v => by simp)
    List.nodup_nil
    (fun v => Iff.rfl)
    (fun v => by
      simp only [List.not_mem_nil, List.count_nil, false_iff]
      omega)
  rw [processLayer_eq]
  refine ⟨fun v => ?_, H.2.1, fun v => ?_⟩
  · have h := H.1 v
    simpa [hts v] using h
  · have h := H.2.2 v
    simpa [hts v] using h

lemma cntFrom_pos_to (E : List EdgeData) (S : List String) (v : String)
    (h : 0 < cntFrom E S v) : ∃ e ∈ E, e.«to» = v := by
  unfold cntFrom at h
  rw [List.countP_pos_iff] at h
  obtain ⟨e, he, hp⟩ := h
  simp only [decide_eq_true_eq] at hp
  exact ⟨e, he, hp.1⟩

lemma KahnInv_step (E : List EdgeData) (ids : List String)
    (deg : String → Nat) (cur : List String) (acc : List (List String))
    (hvTo : ∀ e ∈ E, e.«to» ∈ ids)
    (inv : KahnInv E ids deg cur acc) (hne : cur ≠ []) :
    KahnInv E ids (processLayer (adjMap E) deg cur).1
      (sortStr (processLayer (adjMap E) deg cur).2) (acc ++ [cur]) := by
  obtain ⟨hnd_acc, hnd_cur, hdisj⟩ := List.nodup_append.mp inv.nodup
  have hdisj' : ∀ u ∈ cur, u ∉ acc.flatten := fun u hu hacc => hdisj hacc hu
  have hbound : ∀ v, cntFrom E cur v ≤ deg v := fun v => by
    rw [inv.degEq v]
    exact cntFrom_le_inOutside E acc.flatten cur v hdisj'
  obtain ⟨hdeg', hnodup', hmem'⟩ := processLayer_spec E deg cur hnd_cur hbound
  have hflat : (acc ++ [cur]).flatten = acc.flatten ++ cur := by
    simp [List.flatten_append]
  have hsplit : ∀ v, inOutside E acc.flatten v =
      cntFrom E cur v + inOutside E (acc.flatten ++ cur) v :=
    fun v => inOutside_append E acc.flatten cur v hdisj'
  have hdegNew : ∀ v, (processLayer (adjMap E) deg cur).1 v =
      inOutside E (acc ++ [cur]).flatten v := by
    intro v
    rw [hdeg' v, hflat, inv.degEq v, hsplit v]
    omega
  have hzeroOld : ∀ v ∈ acc.flatten ++ cur, (processLayer (adjMap E) deg cur).1 v = 0 := by
    intro v hv
    have h0 : deg v = 0 := by
      rcases List.mem_append.mp hv with h | h
      · exact inv.accZero v h
      · exact inv.curZero v h
    rw [hdeg' v]
    omega
  have hnext_pos : ∀ v ∈ sortStr (processLayer (adjMap E) deg cur).2, 0 < deg v := by
    intro v hv
    exact ((hmem' v).mp (sortStr_mem.mp hv)).1
  have hnext_not_old : ∀ v ∈ sortStr (processLayer (adjMap E) deg cur).2,
      v ∉ acc.flatten ++ cur := by
    intro v hv hmem
    have h0 : deg v = 0 := by
      rcases List.mem_append.mp hmem with h | h
      · exact inv.accZero v h
      · exact inv.curZero v h
    have := hnext_pos v hv
    omega
  refine ⟨?_, ?_, ?_, ?_, ?_, ?_, ?_, ?_, ?_, ?_⟩
  · -- nodup
    rw [hflat]
    rw [List.nodup_append]
    refine ⟨inv.nodup, sortStr_nodup hnodup', ?_⟩
    intro a ha hb
    exact hnext_not_old a hb ha
  · -- subset
    intro v hv
    rw [hflat] at hv
    rcases List.mem_append.mp hv with h | h
    · exact inv.subset v h
    · have hm := (hmem' v).mp (sortStr_mem.mp h)
      have hcnt : 0 < cntFrom E cur v := by omega
      obtain ⟨e, he, hev⟩ := cntFrom_pos_to E cur v hcnt
      exact hev ▸ hvTo e he
  · -- curSorted
    exact sortStr_sorted _
  · -- degEq
    exact hdegNew
  · -- curZero
    intro v hv
    have hm := (hmem' v).mp (sortStr_mem.mp hv)
    rw [hdeg' v]
    omega
  · -- accZero
    intro v hv
    rw [hflat] at hv
    exact hzeroOld v hv
  · -- zeroIn
    intro v hvids hv0
    rw [hdeg' v] at hv0
    by_cases h0 : deg v = 0
    · rcases inv.zeroIn v hvids h0 with h | h
      · exact Or.inl (by rw [hflat]; exact List.mem_append.mpr (Or.inl h))
      · exact Or.inl (by rw [hflat]; exact List.mem_append.mpr (Or.inr h))
    · right
      rw [sortStr_mem]
      rw [hmem' v]
      have := hbound v
      exact ⟨Nat.pos_of_ne_zero h0, by omega⟩
  · -- accSorted
    intro l hl
    rcases List.mem_append.mp hl with h | h
    · exact inv.accSorted l h
    · rw [List.mem_singleton.mp h]
      exact inv.curSorted
  · -- accNe
    intro l hl
    rcases List.mem_append.mp hl with h | h
    · exact inv.accNe l h
    · rw [List.mem_singleton.mp h]
      exact hne
  · -- order
    intro e he j l hj hto
    rcases Nat.lt_trichotomy j acc.length with hlt | heq | hgt
    · rw [List.getElem?_append, if_pos hlt] at hj
      have := inv.order e he j l hj hto
      rwa [List.take_append_of_le_length (Nat.le_of_lt hlt)]
    · rw [List.getElem?_append, if_neg (by omega)] at hj
      simp only [heq, Nat.sub_self] at hj
      have hl : l = cur := by
        simpa using hj.symm
      subst hl
      have h0 : deg e.«to» = 0 := inv.curZero _ hto
      rw [inv.degEq] at h0
      have hfrom : e.«from» ∈ acc.flatten := by
        by_contra hcon
        have := inOutside_pos E acc.flatten he rfl hcon
        omega
      rw [heq, List.take_left]
      exact hfrom
    · exfalso
      rw [List.getElem?_append, if_neg (by omega)] at hj
      rw [List.getElem?_eq_some_iff] at hj
      obtain ⟨hlen, _⟩ := hj
      simp at hlen
      omega

lemma KahnInv_init (g : GraphData) :
    KahnInv g.edges (nodeIds g) (in_degree g.edges)
      (sortStr ((nodeIds g).filter (fun v => in_degree g.edges v == 0))) [] := by
  have hids : (nodeIds g).Nodup := List.nodup_dedup _
  have hfil : ((nodeIds g).filter (fun v => in_degree g.edges v == 0)).Nodup :=
    hids.filter _
  refine ⟨?_, ?_, ?_, ?_, ?_, ?_, ?_, ?_, ?_, ?_⟩
  · simpa using sortStr_nodup hfil
  · intro v hv
    simp only [List.flatten_nil, List.nil_append] at hv
    exact (List.mem_filter.mp (sortStr_mem.mp hv)).1
  · exact sortStr_sorted _
  · intro v
    simpa using in_degree_eq_inOutside g.edges v
  · intro v hv
    have := (List.mem_filter.mp (sortStr_mem.mp hv)).2
    simpa using this
  · intro v hv
    simp at hv
  · intro v hvids hv0
    right
    rw [sortStr_mem, List.mem_filter]
    exact ⟨hvids, by simpa using hv0⟩
  · intro l hl
    simp at hl
  · intro l hl
    simp at hl
  · intro e _ j l hj
    simp at hj

lemma kahnLoop_spec (E : List EdgeData) (ids : List String)
    (hvTo : ∀ e ∈ E, e.«to» ∈ ids) :
    ∀ (fuel : Nat) (deg : String → Nat) (cur : List String)
      (acc : List (List String)),
      KahnInv E ids deg cur acc →
      ids.length + 1 ≤ fuel + acc.flatten.length →
      ∃ tail, kahnLoop (adjMap E) fuel deg cur acc = acc ++ tail ∧
        KahnFinal E ids (acc ++ tail) := by
  intro fuel
  induction fuel with
  | zero =>
    intro deg cur acc inv hfuel
    exfalso
    have hnd : acc.flatten.Nodup := (List.nodup_append.mp inv.nodup).1
    have hsub : acc.flatten ⊆ ids := fun v hv =>
      inv.subset v (List.mem_append.mpr (Or.inl hv))
    have := (hnd.subperm hsub).length_le
    omega
  | succ fuel ih =>
    intro deg cur acc inv hfuel
    by_cases hc : cur = []
    · refine ⟨[], ?_, ?_⟩
      · simp [kahnLoop, hc]
      · rw [List.append_nil]
        refine ⟨?_, ?_, inv.accSorted, inv.accNe, inv.order, ?_⟩
        · have := inv.nodup
          rw [hc, List.append_nil] at this
          exact this
        · intro v hv
          exact inv.subset v (List.mem_append.mpr (Or.inl hv))
        · intro v hvids hvnot hzero
          have hd0 : deg v = 0 := by rw [inv.degEq v, hzero]
          rcases inv.zeroIn v hvids hd0 with h | h
          · exact hvnot h
          · rw [hc] at h
            simp at h
    · have inv' := KahnInv_step E ids deg cur acc hvTo inv hc
      have hlen : 1 ≤ cur.length := List.length_pos.mpr hc
      have hfuel' : ids.length + 1 ≤ fuel + (acc ++ [cur]).flatten.length := by
        have : (acc ++ [cur]).flatten.length = acc.flatten.length + cur.length := by
          simp [List.flatten_append]
        omega
      obtain ⟨tail, heq, hfin⟩ := ih _ _ _ inv' hfuel'
      refine ⟨[cur] ++ tail, ?_, ?_⟩
      · show kahnLoop (adjMap E) (fuel + 1) deg cur acc = _
        rw [kahnLoop, if_neg hc, heq, List.append_assoc]
      · rw [← List.append_assoc]
        exact hfin

lemma checkEdges_ok (ids : List String) :
    ∀ (es : List EdgeData), (∀ e ∈ es, e.«from» ∈ ids ∧ e.«to» ∈ ids) →
      checkEdges ids es = Except.ok ()
  | [], _ => rfl
  | e :: es, h => by
    have he := h e (List.mem_cons_self e es)
    rw [checkEdges, if_neg (not_not_intro he.1), if_neg (not_not_intro he.2)]
    exact checkEdges_ok ids es (fun e' he' => h e' (List.mem_cons_of_mem _ he'))

lemma topological_sort_valid_eq (g : GraphData) (hvalid : EdgesValid g) :
    topological_sort g =
      (if ((kahnLoop (adjMap g.edges) ((nodeIds g).length + 1) (in_degree g.edges)
            (sortStr ((nodeIds g).filter (fun v => in_degree g.edges v == 0))) []).map
            List.length).sum ≠ g.nodes.length then
        Except.ok [sortStr (g.nodes.map (fun n => n.id))]
      else
        Except.ok (kahnLoop (adjMap g.edges) ((nodeIds g).length + 1) (in_degree g.edges)
          (sortStr ((nodeIds g).filter (fun v => in_degree g.edges v == 0))) [])) := by
  unfold topological_sort
  rw [checkEdges_ok (nodeIds g) g.edges hvalid]

lemma topological_sort_run (g : GraphData) (hvalid : EdgesValid g) :
    ∃ L, KahnFinal g.edges (nodeIds g) L ∧
      topological_sort g =
        (if (L.map List.length).sum ≠ g.nodes.length then
          Except.ok [sortStr (g.nodes.map (fun n => n.id))]
        else Except.ok L) := by
  have hvTo : ∀ e ∈ g.edges, e.«to» ∈ nodeIds g := fun e he => (hvalid e he).2
  obtain ⟨tail, heq, hfin⟩ := kahnLoop_spec g.edges (nodeIds g) hvTo
    ((nodeIds g).length + 1) (in_degree g.edges)
    (sortStr ((nodeIds g).filter (fun v => in_degree g.edges v == 0))) []
    (KahnInv_init g) (by simp)
  rw [List.nil_append] at heq hfin
  refine ⟨tail, hfin, ?_⟩
  rw [topological_sort_valid_eq g hvalid, heq]

lemma kahnFinal_complete (E : List EdgeData) (ids : List String)
    (L : List (List String))
    (hvalid : ∀ e ∈ E, e.«from» ∈ ids ∧ e.«to» ∈ ids)
    (f : String → Nat) (hf : ∀ e ∈ E, f e.«from» < f e.«to»)
    (fin : KahnFinal E ids L) : ∀ v ∈ ids, v ∈ L.flatten := by
  suffices h : ∀ n v, v ∈ ids → f v < n → v ∈ L.flatten by
    intro v hv
    exact h (f v + 1) v hv (Nat.lt_succ_self _)
  intro n
  induction n with
  | zero => intro v _ hlt; omega
  | succ n ih =>
    intro v hv hlt
    by_contra hnot
    have hstuck := fin.stuck v hv hnot
    have hpos : 0 < inOutside E L.flatten v := Nat.pos_of_ne_zero hstuck
    unfold inOutside at hpos
    rw [List.countP_pos_iff] at hpos
    obtain ⟨e, he, hp⟩ := hpos
    simp only [decide_eq_true_eq] at hp
    obtain ⟨hto, hfrom_not⟩ := hp
    have hfrom_ids : e.«from» ∈ ids := (hvalid e he).1
    have hflt : f e.«from» < f e.«to» := hf e he
    rw [hto] at hflt
    exact hfrom_not (ih e.«from» hfrom_ids (by omega))

lemma mem_getD_iff (L : List (List String)) (v : String) (i : Nat) :
    v ∈ L.getD i [] ↔ ∃ h : i < L.length, v ∈ L[i] := by
  by_cases h : i < L.length
  · rw [List.getD_eq_getElem?_getD, List.getElem?_eq_getElem h]
    simp [h]
  · rw [List.getD_eq_default _ _ (Nat.le_of_not_lt h)]
    simp [h]

lemma unique_layer_of_nodup (L : List (List String)) (hnd : L.flatten.Nodup)
    (v : String) : ∀ {i j : Nat}, v ∈ L.getD i [] → v ∈ L.getD j [] → i = j := by
  have hpair := (List.nodup_flatten.mp hnd).2
  have key : ∀ i j : Nat, i < j → v ∈ L.getD i [] → v ∈ L.getD j [] → False := by
    intro i j hij hi hj
    obtain ⟨hi_lt, hi_mem⟩ := (mem_getD_iff L v i).mp hi
    obtain ⟨hj_lt, hj_mem⟩ := (mem_getD_iff L v j).mp hj
    have hdisj := List.pairwise_iff_getElem.mp hpair i j hi_lt hj_lt hij
    exact hdisj hi_mem hj_mem
  intro i j hi hj
  rcases Nat.lt_trichotomy i j with h | h | h
  · exact absurd (key i j h hi hj) (fun x => x)
  · exact h
  · exact absurd (key j i h hj hi) (fun x => x)

lemma mem_take_flatten (L : List (List String)) (v : String) (j : Nat)
    (h : v ∈ (L.take j).flatten) : ∃ i, i < j ∧ v ∈ L.getD i [] := by
  rw [List.mem_flatten] at h
  obtain ⟨l, hl, hvl⟩ := h
  obtain ⟨i, hi_lt, hi_eq⟩ := List.mem_iff_getElem.mp hl
  have hi_len : i < L.length := Nat.lt_of_lt_of_le hi_lt (by simp)
  refine ⟨i, ?_, ?_⟩
  · have := hi_lt
    simp [List.length_take] at this
    omega
  · rw [mem_getD_iff]
    refine ⟨hi_len, ?_⟩
    rw [List.getElem_take] at hi_eq
    exact hi_eq ▸ hvl

lemma KahnInv_perm (E₁ E₂ : List EdgeData) (hper : E₁.Perm E₂)
    (ids : List String) (deg : String → Nat) (cur : List String)
    (acc : List (List String))
    (inv : KahnInv E₁ ids deg cur acc) : KahnInv E₂ ids deg cur acc := by
  have hout : ∀ S v, inOutside E₁ S v = inOutside E₂ S v :=
    fun S v => hper.countP_eq _
  exact ⟨inv.nodup, inv.subset, inv.curSorted,
    fun v => (inv.degEq v).trans (hout _ v), inv.curZero, inv.accZero,
    inv.zeroIn, inv.accSorted, inv.accNe,
    fun e he => inv.order e (hper.mem_iff.mpr he)⟩

lemma kahnLoop_congr (E₁ E₂ : List EdgeData) (ids : List String)
    (hper : E₁.Perm E₂) (hvTo : ∀ e ∈ E₁, e.«to» ∈ ids) :
    ∀ (fuel : Nat) (deg : String → Nat) (cur : List String)
      (acc : List (List String)), KahnInv E₁ ids deg cur acc →
      kahnLoop (adjMap E₁) fuel deg cur acc =
        kahnLoop (adjMap E₂) fuel deg cur acc := by
  intro fuel
  induction fuel with
  | zero => intro deg cur acc _; rfl
  | succ fuel ih =>
    intro deg cur acc inv
    by_cases hc : cur = []
    · rw [kahnLoop, kahnLoop, if_pos hc, if_pos hc]
    · obtain ⟨hnd_acc, hnd_cur, hdisj⟩ := List.nodup_append.mp inv.nodup
      have hdisj' : ∀ u ∈ cur, u ∉ acc.flatten := fun u hu ha => hdisj ha hu
      have hbound : ∀ v, cntFrom E₁ cur v ≤ deg v := fun v => by
        rw [inv.degEq v]
        exact cntFrom_le_inOutside E₁ acc.flatten cur v hdisj'
      have hcnt : ∀ v, cntFrom E₁ cur v = cntFrom E₂ cur v :=
        fun v => hper.countP_eq _
      obtain ⟨hd1, hn1, hm1⟩ := processLayer_spec E₁ deg cur hnd_cur hbound
      obtain ⟨hd2, hn2, hm2⟩ := processLayer_spec E₂ deg cur hnd_cur
        (fun v => (hcnt v) ▸ hbound v)
      have hdeq : (processLayer (adjMap E₁) deg cur).1 =
          (processLayer (adjMap E₂) deg cur).1 :=
        funext fun v => by rw [hd1 v, hd2 v, hcnt v]
      have hperm_next : (processLayer (adjMap E₁) deg cur).2.Perm
          (processLayer (adjMap E₂) deg cur).2 := by
        rw [List.perm_ext_iff_of_nodup hn1 hn2]
        intro v
        rw [hm1 v, hm2 v, hcnt v]
      have hsort : sortStr (processLayer (adjMap E₁) deg cur).2 =
          sortStr (processLayer (adjMap E₂) deg cur).2 := sortStr_congr hperm_next
      have inv' := KahnInv_step E₁ ids deg cur acc hvTo inv hc
      rw [kahnLoop, kahnLoop, if_neg hc, if_neg hc]
      show kahnLoop (adjMap E₁) fuel (processLayer (adjMap E₁) deg cur).1
          (sortStr (processLayer (adjMap E₁) deg cur).2) (acc ++ [cur]) =
        kahnLoop (adjMap E₂) fuel (processLayer (adjMap E₂) deg cur).1
          (sortStr (processLayer (adjMap E₂) deg cur).2) (acc ++ [cur])
      rw [← hdeq, ← hsort]
      exact ih _ _ _ inv'

/-- C1: for every acyclic input graph with unique node ids whose edges all
reference existing node ids, `topological_sort` succeeds and places every
edge's source in a layer of strictly smaller index than its target's
layer. -/
theorem C1_topological_sort_respects_edges (g : GraphData)
    (hnodup : (g.nodes.map (fun n => n.id)).Nodup)
    (hvalid : EdgesValid g) (hacyc : Acyclic g) :
    ∃ L, topological_sort g = Except.ok L ∧
      ∀ e ∈ g.edges, ∃ i j, i < j ∧
        e.«from» ∈ L.getD i [] ∧ e.«to» ∈ L.getD j [] ∧
        (∀ i', e.«from» ∈ L.getD i' [] → i' = i) ∧
        (∀ j', e.«to» ∈ L.getD j' [] → j' = j) := by
  have hids_eq : nodeIds g = g.nodes.map (fun n => n.id) :=
    List.dedup_eq_self.mpr hnodup
  obtain ⟨L, fin, heq⟩ := topological_sort_run g hvalid
  obtain ⟨f, hf⟩ := hacyc
  have hcompl := kahnFinal_complete g.edges (nodeIds g) L hvalid f hf fin
  have hids_nd : (nodeIds g).Nodup := List.nodup_dedup _
  have hperm : L.flatten.Perm (nodeIds g) := by
    rw [List.perm_ext_iff_of_nodup fin.nodup hids_nd]
    exact fun v => ⟨fun h => fin.subset v h, fun h => hcompl v h⟩
  have htot : (L.map List.length).sum = g.nodes.length := by
    rw [← List.length_flatten, hperm.length_eq, hids_eq, List.length_map]
  refine ⟨L, ?_, ?_⟩
  · rw [heq, if_neg (not_not_intro htot)]
  · intro e he
    have hto_flat : e.«to» ∈ L.flatten := hcompl _ (hvalid e he).2
    rw [List.mem_flatten] at hto_flat
    obtain ⟨l, hl, htol⟩ := hto_flat
    obtain ⟨j, hj_lt, hj_eq⟩ := List.mem_iff_getElem.mp hl
    have hjq : L[j]? = some l := by rw [List.getElem?_eq_getElem hj_lt, hj_eq]
    have hfrom_take := fin.order e he j l hjq htol
    obtain ⟨i, hij, hifrom⟩ := mem_take_flatten L e.«from» j hfrom_take
    have hjmem : e.«to» ∈ L.getD j [] :=
      (mem_getD_iff L _ j).mpr ⟨hj_lt, hj_eq ▸ htol⟩
    refine ⟨i, j, hij, hifrom, hjmem, ?_, ?_⟩
    · exact fun i' hi' => unique_layer_of_nodup L fin.nodup _ hi' hifrom
    · exact fun j' hj' => unique_layer_of_nodup L fin.nodup _ hj' hjmem

/-- Witness for C1 at the concrete graph a→b. -/
theorem C1_witness :
    ((gAB.nodes.map (fun n => n.id)).Nodup ∧ EdgesValid gAB ∧ Acyclic gAB) ∧
    (∃ L, topological_sort gAB = Except.ok L ∧
      ∀ e ∈ gAB.edges, ∃ i j, i < j ∧
        e.«from» ∈ L.getD i [] ∧ e.«to» ∈ L.getD j [] ∧
        (∀ i', e.«from» ∈ L.getD i' [] → i' = i) ∧
        (∀ j', e.«to» ∈ L.getD j' [] → j' = j)) :=
  ⟨⟨by decide, by decide, ⟨fun s => if s = "b" then 1 else 0, by decide⟩⟩,
   C1_topological_sort_respects_edges gAB (by decide) (by decide)
     ⟨fun s => if s = "b" then 1 else 0, by decide⟩⟩

/-- C2: layering is insensitive to permutation of the node and edge lists
(the config plays no role in `topological_sort`), and every produced layer
is lexicographically sorted. -/
theorem C2_topological_sort_deterministic (g₁ g₂ : GraphData)
    (hn : g₁.nodes.Perm g₂.nodes) (he : g₁.edges.Perm g₂.edges)
    (_hc : g₁.config = g₂.config) (hvalid : EdgesValid g₁) :
    topological_sort g₁ = topological_sort g₂ ∧
    (∀ L, topological_sort g₁ = Except.ok L → ∀ l ∈ L, l.Sorted strLe) := by
  have hids_mem : ∀ v, v ∈ nodeIds g₁ ↔ v ∈ nodeIds g₂ := by
    intro v
    unfold nodeIds
    rw [List.mem_dedup, List.mem_dedup, (hn.map _).mem_iff]
  have hids_nd₁ : (nodeIds g₁).Nodup := List.nodup_dedup _
  have hids_nd₂ : (nodeIds g₂).Nodup := List.nodup_dedup _
  have hidsperm : (nodeIds g₁).Perm (nodeIds g₂) := by
    rw [List.perm_ext_iff_of_nodup hids_nd₁ hids_nd₂]
    exact hids_mem
  have hvalid₂ : EdgesValid g₂ := fun e he' => by
    have h := hvalid e (he.mem_iff.mpr he')
    exact ⟨(hids_mem _).mp h.1, (hids_mem _).mp h.2⟩
  have hdeg : in_degree g₁.edges = in_degree g₂.edges := funext fun v => by
    unfold in_degree
    exact (he.filter _).length_eq
  have hcur : sortStr ((nodeIds g₁).filter (fun v => in_degree g₁.edges v == 0)) =
      sortStr ((nodeIds g₂).filter (fun v => in_degree g₂.edges v == 0)) := by
    rw [← hdeg]
    exact sortStr_congr (hidsperm.filter _)
  have hfuel : (nodeIds g₁).length = (nodeIds g₂).length := hidsperm.length_eq
  have hloop : kahnLoop (adjMap g₁.edges) ((nodeIds g₁).length + 1)
      (in_degree g₁.edges)
      (sortStr ((nodeIds g₁).filter (fun v => in_degree g₁.edges v == 0))) [] =
      kahnLoop (adjMap g₂.edges) ((nodeIds g₂).length + 1) (in_degree g₂.edges)
      (sortStr ((nodeIds g₂).filter (fun v => in_degree g₂.edges v == 0))) [] := by
    rw [kahnLoop_congr g₁.edges g₂.edges (nodeIds g₁) he
      (fun e he' => (hvalid e he').2) _ _ _ _ (KahnInv_init g₁)]
    rw [hcur, hdeg, hfuel]
  have hfall : sortStr (g₁.nodes.map (fun n => n.id)) =
      sortStr (g₂.nodes.map (fun n => n.id)) := sortStr_congr (hn.map _)
  have hnlen : g₁.nodes.length = g₂.nodes.length := hn.length_eq
  constructor
  · rw [topological_sort_valid_eq g₁ hvalid, topological_sort_valid_eq g₂ hvalid₂,
      hloop, hnlen, hfall]
  · intro L hL
    obtain ⟨L₀, fin, heq⟩ := topological_sort_run g₁ hvalid
    rw [heq] at hL
    by_cases hcond : (L₀.map List.length).sum ≠ g₁.nodes.length
    · rw [if_pos hcond] at hL
      have hLeq := Except.ok.inj hL
      intro l hl
      rw [← hLeq] at hl
      rw [List.mem_singleton.mp hl]
      exact sortStr_sorted _
    · rw [if_neg hcond] at hL
      have hLeq := Except.ok.inj hL
      intro l hl
      exact fin.sorted l (hLeq ▸ hl)

/-- Witness for C2 at the concrete permuted pair gAB / gBA. -/
theorem C2_witness :
    (gAB.nodes.Perm gBA.nodes ∧ gAB.edges.Perm gBA.edges ∧
      gAB.config = gBA.config ∧ EdgesValid gAB) ∧
    topological_sort gAB = topological_sort gBA :=
  ⟨⟨by decide, by decide, rfl, by decide⟩,
   (C2_topological_sort_deterministic gAB gBA (by decide) (by decide) rfl
     (by decide)).1⟩

/-- C3 counterexample: on the graph with isolated node a and two-cycle b↔c
the code discards the already-emitted layer [a] and returns the single
all-node layer, not [[a],[b,c]] as the claim describes. -/
theorem C3_counterexample :
    topological_sort gCyc2 = Except.ok [["a", "b", "c"]] ∧
    [["a", "b", "c"]] ≠ [["a"], ["b", "c"]] := by decide

/-- C3 (amended): on any validated graph that is not acyclic,
`topological_sort` returns Ok with a single lexicographically sorted layer
holding every node id, discarding any layers already emitted. -/
theorem C3_cycle_single_layer (g : GraphData) (hvalid : EdgesValid g)
    (hcyc : ¬ Acyclic g) :
    topological_sort g = Except.ok [sortStr (g.nodes.map (fun n => n.id))] := by
  obtain ⟨L, fin, heq⟩ := topological_sort_run g hvalid
  have hcond : (L.map List.length).sum ≠ g.nodes.length := by
    intro htot
    apply hcyc
    have hlen_flat : L.flatten.length = (L.map List.length).sum :=
      List.length_flatten _
    have hsub : L.flatten ⊆ nodeIds g := fun v hv => fin.subset v hv
    have hsubperm : L.flatten.Subperm (nodeIds g) := fin.nodup.subperm hsub
    have hlen_ids : (nodeIds g).length ≤ g.nodes.length := by
      have h := (List.dedup_sublist (g.nodes.map (fun n => n.id))).length_le
      simpa using h
    have hlen_le := hsubperm.length_le
    have hperm : L.flatten.Perm (nodeIds g) :=
      hsubperm.perm_of_length_le (by omega)
    have hcompl : ∀ v ∈ nodeIds g, v ∈ L.flatten :=
      fun v hv => hperm.mem_iff.mpr hv
    refine ⟨fun v => layerIdxOf L v, ?_⟩
    intro e he
    show layerIdxOf L e.«from» < layerIdxOf L e.«to»
    unfold layerIdxOf
    have hto_flat : e.«to» ∈ L.flatten := hcompl _ (hvalid e he).2
    rw [List.mem_flatten] at hto_flat
    obtain ⟨l, hl, htol⟩ := hto_flat
    have hex : ∃ x ∈ L, (fun l => l.contains e.«to») x = true :=
      ⟨l, hl, by simpa [List.contains] using htol⟩
    have hj_lt : L.findIdx (fun l => l.contains e.«to») < L.length :=
      List.findIdx_lt_length_of_exists hex
    have hjp := List.findIdx_getElem (w := hj_lt)
    have hto_j : e.«to» ∈ L[L.findIdx (fun l => l.contains e.«to»)] := by
      simpa [List.contains] using hjp
    have hjq : L[L.findIdx (fun l => l.contains e.«to»)]? =
        some L[L.findIdx (fun l => l.contains e.«to»)] :=
      List.getElem?_eq_getElem hj_lt
    have hfrom_take := fin.order e he (L.findIdx (fun l => l.contains e.«to»))
      L[L.findIdx (fun l => l.contains e.«to»)] hjq hto_j
    obtain ⟨i, hij, hifrom⟩ := mem_take_flatten L e.«from» _ hfrom_take
    obtain ⟨hi_lt, hi_mem⟩ := (mem_getD_iff L _ i).mp hifrom
    have hle : L.findIdx (fun l => l.contains e.«from») ≤ i := by
      by_contra hgt
      have hnp := List.not_of_lt_findIdx (Nat.lt_of_not_le hgt)
      have hmemb : L[i].contains e.«from» = true := by
        simpa [List.contains] using hi_mem
      rw [hmemb] at hnp
      simp at hnp
    omega
  rw [heq, if_pos hcond]

/-- Witness for C3 at the concrete three-cycle a→b→c→a. -/
theorem C3_witness :
    (EdgesValid gCyc3 ∧ ¬ Acyclic gCyc3) ∧
    topological_sort gCyc3 = Except.ok [["a", "b", "c"]] := by
  have hv : EdgesValid gCyc3 := by decide
  have hna : ¬ Acyclic gCyc3 := by
    rintro ⟨f, hf⟩
    have h1 := hf ⟨"a", "b", "e1", none⟩ (by decide)
    have h2 := hf ⟨"b", "c", "e2", none⟩ (by decide)
    have h3 := hf ⟨"c", "a", "e3", none⟩ (by decide)
    simp only at h1 h2 h3
    omega
  refine ⟨⟨hv, hna⟩, ?_⟩
  rw [C3_cycle_single_layer gCyc3 hv hna]
  decide

lemma findNode_aux (key : String) :
    ∀ (nodes : List NodeData) (init : Option NodeData),
      (∀ m, init = some m → m.id = key) →
      ∀ n, nodes.foldl (fun acc nd => if nd.id == key then some nd else acc) init =
          some n → n.id = key
  | [], _, hinit, n, hn => hinit n hn
  | x :: xs, init, hinit, n, hn => by
    simp only [List.foldl_cons] at hn
    refine findNode_aux key xs _ ?_ n hn
    intro m hm
    by_cases hx : x.id = key
    · rw [if_pos (by simp [hx])] at hm
      cases hm
      exact hx
    · rw [if_neg (by simp [hx])] at hm
      exact hinit m hm

lemma findNode_id {nodes : List NodeData} {key : String} {n : NodeData}
    (h : findNode nodes key = some n) : n.id = key :=
  findNode_aux key nodes none (fun m hm => by cases hm) n h

lemma findPos_aux (key : String) :
    ∀ (ps : List NodePosition) (init : Option NodePosition),
      (∀ m, init = some m → m.id = key) →
      ∀ p, ps.foldl (fun acc q => if q.id == key then some q else acc) init =
          some p → p.id = key
  | [], _, hinit, p, hp => hinit p hp
  | x :: xs, init, hinit, p, hp => by
    simp only [List.foldl_cons] at hp
    refine findPos_aux key xs _ ?_ p hp
    intro m hm
    by_cases hx : x.id = key
    · rw [if_pos (by simp [hx])] at hm
      cases hm
      exact hx
    · rw [if_neg (by simp [hx])] at hm
      exact hinit m hm

lemma findPos_id {ps : List NodePosition} {key : String} {p : NodePosition}
    (h : findPos ps key = some p) : p.id = key :=
  findPos_aux key ps none (fun m hm => by cases hm) p h

lemma assignLayer_mem (config : LayoutConfig) (nodes : List NodeData)
    (layer_idx : Nat) :
    ∀ (layer : List String) (start : Nat) (ps : List NodePosition),
      assignLayer config nodes layer_idx start layer = some ps →
      ∀ p ∈ ps, ∃ nidx node, findNode nodes node.id = some node ∧
        p = positionFor config layer_idx nidx node
  | [], _, ps, h, p, hp => by
    cases h
    simp at hp
  | id :: rest, start, ps, h, p, hp => by
    cases hfind : findNode nodes id with
    | none =>
      simp only [assignLayer, hfind] at h
      exact Option.noConfusion h
    | some node =>
      cases hrec : assignLayer config nodes layer_idx (start + 1) rest with
      | none =>
        simp only [assignLayer, hfind, hrec] at h
        exact Option.noConfusion h
      | some ps' =>
        simp only [assignLayer, hfind, hrec, Option.some.injEq] at h
        rw [← h] at hp
        rcases List.mem_cons.mp hp with hP | hP
        · refine ⟨start, node, ?_, hP⟩
          rw [findNode_id hfind]
          exact hfind
        · exact assignLayer_mem config nodes layer_idx rest (start + 1) ps' hrec p hP

lemma assignAll_mem (config : LayoutConfig) (nodes : List NodeData) :
    ∀ (layers : List (List String)) (start : Nat) (ps : List NodePosition),
      assignAll config nodes start layers = some ps →
      ∀ p ∈ ps, ∃ lidx nidx node, findNode nodes node.id = some node ∧
        p = positionFor config lidx nidx node
  | [], _, ps, h, p, hp => by
    cases h
    simp at hp
  | layer :: rest, start, ps, h, p, hp => by
    cases hlay : assignLayer config nodes start 0 layer with
    | none =>
      simp only [assignAll, hlay] at h
      exact Option.noConfusion h
    | some ps₁ =>
      cases hrec : assignAll config nodes (start + 1) rest with
      | none =>
        simp only [assignAll, hlay, hrec] at h
        exact Option.noConfusion h
      | some ps₂ =>
        simp only [assignAll, hlay, hrec, Option.some.injEq] at h
        rw [← h] at hp
        rcases List.mem_append.mp hp with hP | hP
        · obtain ⟨nidx, node, hfind, hpf⟩ :=
            assignLayer_mem config nodes start layer 0 ps₁ hlay p hP
          exact ⟨start, nidx, node, hfind, hpf⟩
        · exact assignAll_mem config nodes rest (start + 1) ps₂ hrec p hP

lemma assign_positions_mem (layers : List (List String)) (nodes : List NodeData)
    (cfg : LayoutConfig) (ps : List NodePosition)
    (h : assign_positions layers nodes cfg = some ps) :
    ∀ p ∈ ps, ∃ lidx nidx node, findNode nodes node.id = some node ∧
      p = positionFor cfg lidx nidx node :=
  assignAll_mem cfg nodes layers 0 ps h

lemma positionFor_flow_congr (c₁ c₂ : LayoutConfig)
    (hh : isHorizontal c₁ = isHorizontal c₂)
    (hns : c₁.node_spacing = c₂.node_spacing)
    (hrs : c₁.rank_spacing = c₂.rank_spacing) :
    positionFor c₁ = positionFor c₂ := by
  funext li ni node
  unfold positionFor
  rw [hh, hns, hrs]

lemma assignLayer_config_congr (c₁ c₂ : LayoutConfig)
    (h : positionFor c₁ = positionFor c₂) (nodes : List NodeData) (li : Nat) :
    ∀ (start : Nat) (layer : List String),
      assignLayer c₁ nodes li start layer = assignLayer c₂ nodes li start layer
  | _, [] => rfl
  | start, id :: rest => by
    simp only [assignLayer, assignLayer_config_congr c₁ c₂ h nodes li (start + 1) rest, h]

lemma assignAll_config_congr (c₁ c₂ : LayoutConfig)
    (h : positionFor c₁ = positionFor c₂) (nodes : List NodeData) :
    ∀ (start : Nat) (layers : List (List String)),
      assignAll c₁ nodes start layers = assignAll c₂ nodes start layers
  | _, [] => rfl
  | start, layer :: rest => by
    simp only [assignAll, assignAll_config_congr c₁ c₂ h nodes (start + 1) rest,
      assignLayer_config_congr c₁ c₂ h nodes start 0 layer]

lemma assign_positions_coords (layers : List (List String))
    (nodes : List NodeData) (cfg : LayoutConfig) (ps : List NodePosition)
    (h : assign_positions layers nodes cfg = some ps) :
    ∀ p ∈ ps, ∃ (lidx nidx : Nat) (node : NodeData), findNode nodes p.id = some node ∧
      (isHorizontal cfg = true →
        p.x = (lidx : Int) * ((resolveWidth node : Int) + cfg.node_spacing) ∧
        p.y = (nidx : Int) * ((resolveHeight node : Int) + cfg.rank_spacing)) ∧
      (isHorizontal cfg = false →
        p.x = (nidx : Int) * ((resolveWidth node : Int) + cfg.node_spacing) ∧
        p.y = (lidx : Int) * ((resolveHeight node : Int) + cfg.rank_spacing)) := by
  intro p hp
  obtain ⟨lidx, nidx, node, hfind, hpf⟩ :=
    assign_positions_mem layers nodes cfg ps h p hp
  refine ⟨lidx, nidx, node, ?_, ?_, ?_⟩
  · rw [hpf]
    exact hfind
  · intro hhor
    rw [hpf]
    unfold positionFor
    rw [hhor]
    exact ⟨rfl, rfl⟩
  · intro hhor
    rw [hpf]
    unfold positionFor
    rw [hhor]
    exact ⟨rfl, rfl⟩

/-- C6 counterexample: with flow "west" the produced coordinates are
identical to flow "east" (b sits at x = 12 in both), not negated (-12). -/
theorem C6_counterexample :
    assign_positions [["a"], ["b"]] gWide.nodes ⟨"west", 3, 5⟩ =
      assign_positions [["a"], ["b"]] gWide.nodes ⟨"east", 3, 5⟩ ∧
    assign_positions [["a"], ["b"]] gWide.nodes ⟨"west", 3, 5⟩ =
      some [⟨"a", 0, 0, 5, 3, "A"⟩, ⟨"b", 12, 0, 9, 3, "B"⟩] ∧
    ¬ ((12 : Int) = -12) := by decide

/-- C6 (amended): `assign_positions` produces identical results for flow
"west" and flow "east", and for flow "north" and flow "south" — the flow
string only selects the horizontal/vertical axis mapping, and no sign
reversal is applied. -/
theorem C6_west_equals_east (layers : List (List String))
    (nodes : List NodeData) (ns rs : Int) :
    assign_positions layers nodes ⟨"west", ns, rs⟩ =
      assign_positions layers nodes ⟨"east", ns, rs⟩ ∧
    assign_positions layers nodes ⟨"north", ns, rs⟩ =
      assign_positions layers nodes ⟨"south", ns, rs⟩ := by
  constructor
  · show assignAll ⟨"west", ns, rs⟩ nodes 0 layers =
      assignAll ⟨"east", ns, rs⟩ nodes 0 layers
    exact assignAll_config_congr ⟨"west", ns, rs⟩ ⟨"east", ns, rs⟩
      (positionFor_flow_congr ⟨"west", ns, rs⟩ ⟨"east", ns, rs⟩ rfl rfl rfl)
      nodes 0 layers
  · show assignAll ⟨"north", ns, rs⟩ nodes 0 layers =
      assignAll ⟨"south", ns, rs⟩ nodes 0 layers
    exact assignAll_config_congr ⟨"north", ns, rs⟩ ⟨"south", ns, rs⟩
      (positionFor_flow_congr ⟨"north", ns, rs⟩ ⟨"south", ns, rs⟩ rfl rfl rfl)
      nodes 0 layers

/-- C7: every position produced by `assign_positions` carries the resolved
width (explicit if non-zero, else max(len label, len name, 3) + 4), the
resolved height (explicit if non-zero, else 3) and the resolved label
(explicit if non-empty, else the node name); in particular a node with no
explicit width gets width ≥ 7 and ≥ len(label) + 4. -/
theorem C7_size_label_resolution (layers : List (List String))
    (nodes : List NodeData) (cfg : LayoutConfig) (ps : List NodePosition)
    (h : assign_positions layers nodes cfg = some ps) :
    ∀ p ∈ ps, ∃ node, findNode nodes p.id = some node ∧
      p.width = (if node.width > 0 then node.width
        else max (max node.label.length node.name.length) 3 + 4) ∧
      p.height = (if node.height > 0 then node.height else 3) ∧
      p.label = (if node.label ≠ "" then node.label else node.name) ∧
      (node.width = 0 → 7 ≤ p.width ∧ node.label.length + 4 ≤ p.width) := by
  intro p hp
  obtain ⟨lidx, nidx, node, hfind, hpf⟩ :=
    assign_positions_mem layers nodes cfg ps h p hp
  refine ⟨node, ?_, ?_, ?_, ?_, ?_⟩
  · rw [hpf]
    exact hfind
  · rw [hpf]
    rfl
  · rw [hpf]
    rfl
  · rw [hpf]
    rfl
  · intro hw0
    rw [hpf]
    show 7 ≤ resolveWidth node ∧ node.label.length + 4 ≤ resolveWidth node
    unfold resolveWidth
    rw [if_neg (by omega)]
    have h1 : 3 ≤ max (max node.label.length node.name.length) 3 :=
      le_max_right _ _
    have h2 : node.label.length ≤ max (max node.label.length node.name.length) 3 :=
      le_trans (le_max_left _ _) (le_max_left _ _)
    omega

/-- Witness for C7 at a node with empty label and no explicit size. -/
theorem C7_witness :
    assign_positions [["a"]] gBadEdge.nodes LayoutConfig.default =
      some [⟨"a", 0, 0, 7, 3, "A"⟩] ∧
    (∀ p ∈ [(⟨"a", 0, 0, 7, 3, "A"⟩ : NodePosition)],
      ∃ node, findNode gBadEdge.nodes p.id = some node ∧
        p.width = (if node.width > 0 then node.width
          else max (max node.label.length node.name.length) 3 + 4) ∧
        p.height = (if node.height > 0 then node.height else 3) ∧
        p.label = (if node.label ≠ "" then node.label else node.name) ∧
        (node.width = 0 → 7 ≤ p.width ∧ node.label.length + 4 ≤ p.width)) :=
  ⟨by decide,
   C7_size_label_resolution [["a"]] gBadEdge.nodes LayoutConfig.default _ (by decide)⟩

/-- C10 (implicit): the flow string is never validated — any flow other
than exactly "east" or "west" (e.g. "East", "", "north") is laid out with
the vertical mapping (layer index advances y, within-layer index advances
x), identically to flow "south", and never causes an error. -/
theorem C10_flow_fallback_vertical (cfg : LayoutConfig)
    (h1 : cfg.flow ≠ "east") (h2 : cfg.flow ≠ "west")
    (layers : List (List String)) (nodes : List NodeData) :
    assign_positions layers nodes cfg =
      assign_positions layers nodes ⟨"south", cfg.node_spacing, cfg.rank_spacing⟩ ∧
    ∀ ps, assign_positions layers nodes cfg = some ps →
      ∀ p ∈ ps, ∃ (lidx nidx : Nat) (node : NodeData), findNode nodes p.id = some node ∧
        p.x = (nidx : Int) * ((resolveWidth node : Int) + cfg.node_spacing) ∧
        p.y = (lidx : Int) * ((resolveHeight node : Int) + cfg.rank_spacing) := by
  have hhor : isHorizontal cfg = false := by
    unfold isHorizontal
    simp [beq_eq_decide_eq, h1, h2]
  constructor
  · show assignAll cfg nodes 0 layers =
      assignAll ⟨"south", cfg.node_spacing, cfg.rank_spacing⟩ nodes 0 layers
    exact assignAll_config_congr cfg ⟨"south", cfg.node_spacing, cfg.rank_spacing⟩
      (positionFor_flow_congr cfg ⟨"south", cfg.node_spacing, cfg.rank_spacing⟩
        (by rw [hhor]; simp [isHorizontal, beq_eq_decide_eq]) rfl rfl)
      nodes 0 layers
  · intro ps hps p hp
    obtain ⟨lidx, nidx, node, hfind, _, hvert⟩ :=
      assign_positions_coords layers nodes cfg ps hps p hp
    exact ⟨lidx, nidx, node, hfind, hvert hhor⟩

/-- Witness for C10 at the unrecognized flow string "East". -/
theorem C10_witness :
    (("East" : String) ≠ "east" ∧ ("East" : String) ≠ "west") ∧
    (assign_positions [["a"]] gBadEdge.nodes ⟨"East", 3, 5⟩ =
      assign_positions [["a"]] gBadEdge.nodes ⟨"south", 3, 5⟩ ∧
    ∀ ps, assign_positions [["a"]] gBadEdge.nodes ⟨"East", 3, 5⟩ = some ps →
      ∀ p ∈ ps, ∃ (lidx nidx : Nat) (node : NodeData), findNode gBadEdge.nodes p.id = some node ∧
        p.x = (nidx : Int) * ((resolveWidth node : Int) + (3 : Int)) ∧
        p.y = (lidx : Int) * ((resolveHeight node : Int) + (5 : Int))) :=
  ⟨⟨by decide, by decide⟩,
   C10_flow_fallback_vertical ⟨"East", 3, 5⟩ (by decide) (by decide)
     [["a"]] gBadEdge.nodes⟩

/-- C8: every routed edge's polyline starts at the source's right-middle
boundary point, ends at the target's left-middle boundary point, is a
2-point segment when the two y coordinates agree and otherwise the 4-point
manhattan path through a shared midpoint x, and every segment is horizontal
or vertical. -/
theorem C8_route_edges_geometry (g : GraphData) (ps : List NodePosition)
    (_hflow : g.config.flow = "east") :
    ∀ ep ∈ route_edges g ps, ∃ A B,
      findPos ps ep.«from» = some A ∧ findPos ps ep.«to» = some B ∧
      ep.points.head? =
        some ⟨A.x + (A.width : Int), A.y + ((A.height / 2 : Nat) : Int)⟩ ∧
      ep.points.getLast? = some ⟨B.x, B.y + ((B.height / 2 : Nat) : Int)⟩ ∧
      2 ≤ ep.points.length ∧
      (A.y + ((A.height / 2 : Nat) : Int) = B.y + ((B.height / 2 : Nat) : Int) →
        ep.points = [⟨A.x + (A.width : Int), A.y + ((A.height / 2 : Nat) : Int)⟩,
                     ⟨B.x, B.y + ((B.height / 2 : Nat) : Int)⟩]) ∧
      (A.y + ((A.height / 2 : Nat) : Int) ≠ B.y + ((B.height / 2 : Nat) : Int) →
        ∃ m, ep.points =
          [⟨A.x + (A.width : Int), A.y + ((A.height / 2 : Nat) : Int)⟩,
           ⟨m, A.y + ((A.height / 2 : Nat) : Int)⟩,
           ⟨m, B.y + ((B.height / 2 : Nat) : Int)⟩,
           ⟨B.x, B.y + ((B.height / 2 : Nat) : Int)⟩]) ∧
      ep.points.Chain' (fun p q => p.y = q.y ∨ p.x = q.x) := by
  intro ep hep
  obtain ⟨e, he, hre⟩ := List.mem_filterMap.mp hep
  cases hfa : findPos ps e.«from» with
  | none =>
    rw [routeOne, hfa] at hre
    exact Option.noConfusion hre
  | some A =>
    cases hfb : findPos ps e.«to» with
    | none =>
      rw [routeOne, hfa, hfb] at hre
      exact Option.noConfusion hre
    | some B =>
      rw [routeOne, hfa, hfb] at hre
      simp only [Option.some.injEq] at hre
      by_cases hy : A.y + ((A.height / 2 : Nat) : Int) = B.y + ((B.height / 2 : Nat) : Int)
      · rw [if_pos hy] at hre
        rw [← hre]
        refine ⟨A, B, hfa, hfb, rfl, rfl, by simp, fun _ => rfl, fun hne => absurd hy hne, ?_⟩
        simp only [List.chain'_cons, List.chain'_singleton, and_true]
        left
        exact hy
      · rw [if_neg hy] at hre
        rw [← hre]
        refine ⟨A, B, hfa, hfb, rfl, by simp [List.getLast?], by simp,
          fun heq => absurd heq hy, fun _ => ⟨_, rfl⟩, ?_⟩
        simp [List.chain'_cons, List.chain'_singleton]

/-- Witness for C8 at the concrete layout of gAB. -/
theorem C8_witness :
    gAB.config.flow = "east" ∧
    (∀ ep ∈ route_edges gAB [⟨"a", 0, 0, 5, 3, "A"⟩, ⟨"b", 8, 0, 5, 3, "B"⟩],
      ∃ A B,
        findPos [⟨"a", 0, 0, 5, 3, "A"⟩, ⟨"b", 8, 0, 5, 3, "B"⟩] ep.«from» = some A ∧
        findPos [⟨"a", 0, 0, 5, 3, "A"⟩, ⟨"b", 8, 0, 5, 3, "B"⟩] ep.«to» = some B ∧
        ep.points.head? =
          some ⟨A.x + (A.width : Int), A.y + ((A.height / 2 : Nat) : Int)⟩ ∧
        ep.points.getLast? = some ⟨B.x, B.y + ((B.height / 2 : Nat) : Int)⟩ ∧
        2 ≤ ep.points.length ∧
        (A.y + ((A.height / 2 : Nat) : Int) = B.y + ((B.height / 2 : Nat) : Int) →
          ep.points = [⟨A.x + (A.width : Int), A.y + ((A.height / 2 : Nat) : Int)⟩,
                       ⟨B.x, B.y + ((B.height / 2 : Nat) : Int)⟩]) ∧
        (A.y + ((A.height / 2 : Nat) : Int) ≠ B.y + ((B.height / 2 : Nat) : Int) →
          ∃ m, ep.points =
            [⟨A.x + (A.width : Int), A.y + ((A.height / 2 : Nat) : Int)⟩,
             ⟨m, A.y + ((A.height / 2 : Nat) : Int)⟩,
             ⟨m, B.y + ((B.height / 2 : Nat) : Int)⟩,
             ⟨B.x, B.y + ((B.height / 2 : Nat) : Int)⟩]) ∧
        ep.points.Chain' (fun p q => p.y = q.y ∨ p.x = q.x)) :=
  ⟨rfl, C8_route_edges_geometry gAB [⟨"a", 0, 0, 5, 3, "A"⟩, ⟨"b", 8, 0, 5, 3, "B"⟩] rfl⟩

lemma le_of_mem_max? {l : List Int} {m : Int} (hmax : l.max? = some m) :
    ∀ x ∈ l, x ≤ m := by
  haveI : Std.Antisymm (fun (a b : Int) => a ≤ b) :=
    ⟨fun h1 h2 => le_antisymm h1 h2⟩
  have h := (List.max?_eq_some_iff (fun a => le_refl a) (fun a b => max_choice a b)
    (fun a b c => max_le_iff)).mp hmax
  exact h.2

/-- C9: assuming non-negative spacings, every node rectangle of a layout
result lies inside the computed bounds, and the empty node set yields the
zeroed result without error. -/
theorem C9_bounds_cover (g : GraphData)
    (h1 : 0 ≤ g.config.node_spacing) (h2 : 0 ≤ g.config.rank_spacing) :
    (∀ res, compute_layout g = some (Except.ok res) →
      ∀ p ∈ res.nodes, 0 ≤ p.x ∧ p.x + (p.width : Int) ≤ (res.bounds.width : Int) ∧
        0 ≤ p.y ∧ p.y + (p.height : Int) ≤ (res.bounds.height : Int)) ∧
    (g.nodes = [] →
      compute_layout g = some (Except.ok ⟨[], [], ⟨0, 0⟩⟩)) := by
  constructor
  · intro res hres p hp
    unfold compute_layout at hres
    by_cases hemp : g.nodes.isEmpty
    · rw [if_pos hemp] at hres
      simp only [Option.some.injEq, Except.ok.injEq] at hres
      rw [← hres] at hp
      simp at hp
    · rw [if_neg hemp] at hres
      cases hts : topological_sort g with
      | error err =>
        rw [hts] at hres
        simp at hres
      | ok layers =>
        rw [hts] at hres
        simp only [] at hres
        cases hassign : assign_positions layers g.nodes g.config with
        | none =>
          rw [hassign] at hres
          simp at hres
        | some ps =>
          rw [hassign] at hres
          simp only [] at hres
          simp only [Option.some.injEq, Except.ok.injEq] at hres
          have hnodes : res.nodes = ps := by rw [← hres]
          have hbounds : res.bounds = calculate_bounds ps := by rw [← hres]
          rw [hnodes] at hp
          rw [hbounds]
          obtain ⟨lidx, nidx, node, _, hhor, hver⟩ :=
            assign_positions_coords layers g.nodes g.config ps hassign p hp
          have hwpos : (0 : Int) ≤ (resolveWidth node : Int) + g.config.node_spacing :=
            add_nonneg (Int.natCast_nonneg _) h1
          have hhpos : (0 : Int) ≤ (resolveHeight node : Int) + g.config.rank_spacing :=
            add_nonneg (Int.natCast_nonneg _) h2
          have hx0 : 0 ≤ p.x := by
            cases hb : isHorizontal g.config with
            | true =>
              rw [(hhor hb).1]
              exact mul_nonneg (Int.natCast_nonneg _) hwpos
            | false =>
              rw [(hver hb).1]
              exact mul_nonneg (Int.natCast_nonneg _) hwpos
          have hy0 : 0 ≤ p.y := by
            cases hb : isHorizontal g.config with
            | true =>
              rw [(hhor hb).2]
              exact mul_nonneg (Int.natCast_nonneg _) hhpos
            | false =>
              rw [(hver hb).2]
              exact mul_nonneg (Int.natCast_nonneg _) hhpos
          have hpsne : ps.isEmpty = false := by
            cases hq : ps.isEmpty
            · rfl
            · rw [List.isEmpty_iff] at hq
              rw [hq] at hp
              simp at hp
          unfold calculate_bounds
          rw [hpsne]
          simp only [Bool.false_eq_true, if_false]
          refine ⟨hx0, ?_, hy0, ?_⟩
          · cases hmx : (ps.map (fun q => q.x + (q.width : Int))).max? with
            | none =>
              rw [List.max?_eq_none_iff] at hmx
              rw [List.map_eq_nil_iff] at hmx
              rw [hmx] at hp
              simp at hp
            | some m =>
              have hle := le_of_mem_max? hmx (p.x + (p.width : Int))
                (List.mem_map_of_mem _ hp)
              have hm0 : m ≤ max m 0 := le_max_left _ _
              have hcast : ((max m 0).toNat : Int) = max m 0 :=
                Int.toNat_of_nonneg (le_max_right _ _)
              simp only [hmx, Option.getD_some]
              rw [hcast]
              omega
          · cases hmy : (ps.map (fun q => q.y + (q.height : Int))).max? with
            | none =>
              rw [List.max?_eq_none_iff] at hmy
              rw [List.map_eq_nil_iff] at hmy
              rw [hmy] at hp
              simp at hp
            | some m =>
              have hle := le_of_mem_max? hmy (p.y + (p.height : Int))
                (List.mem_map_of_mem _ hp)
              have hm0 : m ≤ max m 0 := le_max_left _ _
              have hcast : ((max m 0).toNat : Int) = max m 0 :=
                Int.toNat_of_nonneg (le_max_right _ _)
              simp only [hmy, Option.getD_some]
              rw [hcast]
              omega
  · intro hnil
    unfold compute_layout
    rw [if_pos (by rw [List.isEmpty_iff]; exact hnil)]

/-- Witness for C9 at the concrete graph gAB (and the empty graph). -/
theorem C9_witness :
    ((0 : Int) ≤ gAB.config.node_spacing ∧ (0 : Int) ≤ gAB.config.rank_spacing) ∧
    (∀ res, compute_layout gAB = some (Except.ok res) →
      ∀ p ∈ res.nodes, 0 ≤ p.x ∧ p.x + (p.width : Int) ≤ (res.bounds.width : Int) ∧
        0 ≤ p.y ∧ p.y + (p.height : Int) ≤ (res.bounds.height : Int)) ∧
    (gAB.nodes = [] →
      compute_layout gAB = some (Except.ok ⟨[], [], ⟨0, 0⟩⟩)) :=
  ⟨⟨by decide, by decide⟩, C9_bounds_cover gAB (by decide) (by decide)⟩

lemma checkEdges_error (ids : List String) :
    ∀ (es : List EdgeData), (∃ e ∈ es, e.«from» ∉ ids ∨ e.«to» ∉ ids) →
      ∃ e ∈ es,
        (e.«from» ∉ ids ∧
          checkEdges ids es = Except.error ("Edge from unknown node: " ++ e.«from»)) ∨
        (e.«to» ∉ ids ∧
          checkEdges ids es = Except.error ("Edge to unknown node: " ++ e.«to»))
  | [], hex => by
    obtain ⟨e, he, _⟩ := hex
    simp at he
  | e :: es, hex => by
    by_cases hf : e.«from» ∈ ids
    · by_cases ht : e.«to» ∈ ids
      · have hex' : ∃ e' ∈ es, e'.«from» ∉ ids ∨ e'.«to» ∉ ids := by
          obtain ⟨e₀, he₀, hbad⟩ := hex
          rcases List.mem_cons.mp he₀ with h | h
          · rw [h] at hbad
            rcases hbad with hb | hb
            · exact absurd hf hb
            · exact absurd ht hb
          · exact ⟨e₀, h, hbad⟩
        obtain ⟨e', he', hcase⟩ := checkEdges_error ids es hex'
        have hstep : checkEdges ids (e :: es) = checkEdges ids es := by
          rw [checkEdges, if_neg (not_not_intro hf), if_neg (not_not_intro ht)]
        rw [← hstep] at hcase
        exact ⟨e', List.mem_cons_of_mem _ he', hcase⟩
      · refine ⟨e, List.mem_cons_self e es, Or.inr ⟨ht, ?_⟩⟩
        rw [checkEdges, if_neg (not_not_intro hf), if_pos ht]
    · refine ⟨e, List.mem_cons_self e es, Or.inl ⟨hf, ?_⟩⟩
      rw [checkEdges, if_pos hf]

/-- C4 counterexample: with an empty node set a graph whose edge references
nonexistent nodes is laid out successfully (no error at all), and with a
nonempty node set the unknown-reference error message contains the missing
endpoint id but not the edge id ("e9"). -/
theorem C4_counterexample :
    compute_layout gBadEdgeEmpty = some (Except.ok ⟨[], [], ⟨0, 0⟩⟩) ∧
    compute_layout gBadEdge = some (Except.error "Edge to unknown node: x") ∧
    ¬ ("e9".data <:+: ("Edge to unknown node: x").data) := by decide

/-- C4 (amended): for a graph with a nonempty node set containing an edge
with an unknown endpoint, `compute_layout` returns an error (no result) and
the error message identifies the missing endpoint id (the first failing
check in edge order; the edge id does not appear in the message). -/
theorem C4_unknown_ref_error (g : GraphData) (hne : g.nodes ≠ [])
    (hbad : ∃ e ∈ g.edges, e.«from» ∉ nodeIds g ∨ e.«to» ∉ nodeIds g) :
    ∃ e ∈ g.edges, ∃ msg, compute_layout g = some (Except.error msg) ∧
      ((e.«from» ∉ nodeIds g ∧ msg = "Edge from unknown node: " ++ e.«from») ∨
       (e.«to» ∉ nodeIds g ∧ msg = "Edge to unknown node: " ++ e.«to»)) := by
  obtain ⟨e, he, hcase⟩ := checkEdges_error (nodeIds g) g.edges hbad
  have hnemp : ¬ (g.nodes.isEmpty = true) := fun h => hne (List.isEmpty_iff.mp h)
  rcases hcase with ⟨hf, hchk⟩ | ⟨ht, hchk⟩
  · refine ⟨e, he, "Edge from unknown node: " ++ e.«from», ?_, Or.inl ⟨hf, rfl⟩⟩
    unfold compute_layout
    rw [if_neg hnemp]
    unfold topological_sort
    rw [hchk]
  · refine ⟨e, he, "Edge to unknown node: " ++ e.«to», ?_, Or.inr ⟨ht, rfl⟩⟩
    unfold compute_layout
    rw [if_neg hnemp]
    unfold topological_sort
    rw [hchk]

/-- Witness for C4 (amended) at the concrete graph gBadEdge. -/
theorem C4_witness :
    (gBadEdge.nodes ≠ [] ∧
      ∃ e ∈ gBadEdge.edges,
        e.«from» ∉ nodeIds gBadEdge ∨ e.«to» ∉ nodeIds gBadEdge) ∧
    (∃ e ∈ gBadEdge.edges, ∃ msg,
      compute_layout gBadEdge = some (Except.error msg) ∧
      ((e.«from» ∉ nodeIds gBadEdge ∧ msg = "Edge from unknown node: " ++ e.«from») ∨
       (e.«to» ∉ nodeIds gBadEdge ∧ msg = "Edge to unknown node: " ++ e.«to»))) :=
  ⟨⟨by decide, by decide⟩, C4_unknown_ref_error gBadEdge (by decide) (by decide)⟩

-- Sanity checks of the embedding on the repository's own unit tests
-- (`test_topological_sort`: a→b→c yields three singleton layers).
example :
    topological_sort
      { nodes := [⟨"a", "A", "A", 0, 0⟩, ⟨"b", "B", "B", 0, 0⟩, ⟨"c", "C", "C", 0, 0⟩],
        edges := [⟨"a", "b", "e1", none⟩, ⟨"b", "c", "e2", none⟩],
        config := LayoutConfig.default } =
    Except.ok [["a"], ["b"], ["c"]] := by decide

example :
    compute_layout
      { nodes := [⟨"a", "A", "A", 5, 3⟩, ⟨"b", "B", "B", 5, 3⟩],
        edges := [⟨"a", "b", "e1", none⟩],
        config := LayoutConfig.default } =
    some (Except.ok
      { nodes := [⟨"a", 0, 0, 5, 3, "A"⟩, ⟨"b", 8, 0, 5, 3, "B"⟩],
        edges := [⟨"e1", "a", "b", [⟨5, 1⟩, ⟨8, 1⟩], none⟩],
        bounds := ⟨13, 3⟩ }) := by decide
